import Mathlib

/-!
Shallow embedding of `src/util/utils.py` from the repository
BoTNet-for-Visual-Recognition, together with proofs of the specification
claims about it.

Conventions of the embedding:
* Python floats are modelled as rationals (`ℚ`), Python ints as `ℤ` or `ℕ`.
* A Python exception is modelled by `Option`/`Except`: `none`/`error` is the
  raising run, `some`/`ok` the normal return.
* In-place tensor mutation is modelled functionally: the function returns the
  list of updated tensor values.
* Side effects on the file system and on stdout are modelled as the list of
  writes (path, content) respectively the list of printed lines.
-/

namespace Utils

/-! ### AverageMeter (src/util/utils.py, class AverageMeter) -/

/-- The attributes a live `AverageMeter` object carries: `name` and `fmt` are
set in `__init__`; `val`, `avg`, `sum`, `count` are the numeric counters.
`count` is an integer (Python `int`, since callers pass ints and the default
is `n=1`); the others are floats, modelled as `ℚ`. -/
structure AverageMeter where
  name : String
  fmt : String
  val : ℚ
  avg : ℚ
  sum : ℚ
  count : ℤ
deriving DecidableEq

/-- `AverageMeter.reset`: sets `val`, `avg`, `sum`, `count` to `0`.
It does not touch `name` or `fmt`. -/
def AverageMeter.reset (m : AverageMeter) : AverageMeter :=
  { m with val := 0, avg := 0, sum := 0, count := 0 }

/-- `AverageMeter.__init__(name, fmt=":f")`: stores `name` and `fmt`, then
calls `reset`, which initialises the four numeric attributes to `0`. -/
def AverageMeter.init (name : String) (fmt : String) : AverageMeter :=
  AverageMeter.reset { name := name, fmt := fmt, val := 0, avg := 0, sum := 0, count := 0 }

/-- `AverageMeter.update(val, n)`:
`self.val = val; self.sum += val * n; self.count += n; self.avg = self.sum / self.count`.
The last assignment divides by the updated `count`; when that count is `0`
Python raises `ZeroDivisionError`, modelled here as `none`. -/
def AverageMeter.update (m : AverageMeter) (val : ℚ) (n : ℤ) : Option AverageMeter :=
  let s : ℚ := m.sum + val * (n : ℚ)
  let c : ℤ := m.count + n
  if c = 0 then none
  else some { m with val := val, sum := s, count := c, avg := s / (c : ℚ) }

/-- A finite sequence of `update` calls, performed left to right; the run
aborts (`none`) as soon as one call raises. -/
def runUpdates (m : AverageMeter) : List (ℚ × ℤ) → Option AverageMeter
  | [] => some m
  | (v, n) :: rest => (m.update v n).bind (fun m1 => runUpdates m1 rest)

/-! ### scaled_all_reduce (src/util/utils.py) -/

/-- A tensor, flattened to its list of elements. -/
abbrev Tensor := List ℚ

/-- Elementwise addition (the SUM reduction combines replicas this way). -/
def tensorAdd (a b : Tensor) : Tensor := List.zipWith (· + ·) a b

/-- `tensor.mul_(c)`: elementwise in-place scaling, modelled as the scaled
value. -/
def tensorScale (c : ℚ) (t : Tensor) : Tensor := t.map (fun x => c * x)

/-- `torch.distributed.all_reduce(tensor, SUM)` seen globally: given the
replicas of one tensor held by the processes of the group, every process ends
up holding their elementwise sum. -/
def allReduceSum : List Tensor → Tensor
  | [] => []
  | t :: ts => ts.foldl tensorAdd t

/-- `scaled_all_reduce(tensors)` seen globally.  `replicasList` has one entry
per element of the local `tensors` list; entry `i` is the list of replicas of
the `i`-th tensor across the `gpus` processes of the group (so each entry has
length `gpus`, and the local tensor is among the replicas).  The code returns
the input unchanged when `gpus == 1` (each entry is its sole replica);
otherwise it all-reduces every tensor and scales the result by `1.0 / gpus`. -/
def scaled_all_reduce (gpus : ℕ) (replicasList : List (List Tensor)) : List Tensor :=
  if gpus = 1 then replicasList.map (fun reps => reps.headD [])
  else replicasList.map (fun reps => tensorScale (1 / (gpus : ℚ)) (allReduceSum reps))

/-- One step of `scaled_all_reduce`, as an event of its execution trace:
`issue i` queues the asynchronous reduction of tensor `i`
(`dist.all_reduce(tensor, async_op=True)`), `wait i` is `reductions[i].wait()`,
`scale i` is `tensors[i].mul_(1.0 / gpus)`. -/
inductive RedEvent
  | issue (i : ℕ)
  | wait (i : ℕ)
  | scale (i : ℕ)
deriving DecidableEq

/-- The execution trace of `scaled_all_reduce` on a list of `n` tensors: the
single-process case returns before touching any tensor; otherwise the code
runs three successive loops over the tensors — queue all reductions, wait on
all of them, scale all tensors. -/
def scaledAllReduceTrace (gpus n : ℕ) : List RedEvent :=
  if gpus = 1 then []
  else ((List.range n).map RedEvent.issue)
    ++ ((List.range n).map RedEvent.wait)
    ++ ((List.range n).map RedEvent.scale)

/-- Recognises the queueing events of a trace. -/
def isIssue : RedEvent → Bool
  | RedEvent.issue _ => true
  | _ => false

/-! ### accuracy (src/util/utils.py) -/

/-- Index of the largest entry of a score row (`output.topk(1, 1, True, True)`),
earlier index winning ties.  `xs` is the part of the row not yet scanned, `i`
the index of its head, `bi`/`bv` the best index and value seen so far. -/
def argmaxAux : List ℚ → ℕ → ℕ → ℚ → ℕ
  | [], _, bi, _ => bi
  | x :: xs, i, bi, bv => if bv < x then argmaxAux xs (i + 1) i x else argmaxAux xs (i + 1) bi bv

/-- Arg-max of a score row; `0` on the empty row (torch would raise there). -/
def argmaxIdx : List ℚ → ℕ
  | [] => 0
  | x :: xs => argmaxAux xs 1 0 x

/-- `accuracy(output, target, topk=(1,))`, returning the single element of the
result list `res`: the per-row top-1 predictions are compared with the
targets and the number of matches is scaled by `100.0 / batch_size`. -/
def accuracy_top1 (output : List (List ℚ)) (target : List ℕ) : ℚ :=
  let batch_size : ℚ := (target.length : ℚ)
  let pred := output.map argmaxIdx
  let correct := ((pred.zip target).countP (fun p => p.1 == p.2) : ℚ)
  correct * (100 / batch_size)

/-- A one-hot-certain prediction row over `c` classes with all its mass on
class `j` (for `j < c`): probability `1` at position `j` and `0` elsewhere. -/
def oneHot (c j : ℕ) : List ℚ :=
  List.replicate j 0 ++ 1 :: List.replicate (c - j - 1) 0

/-! ### get_lr_scheduler (src/util/utils.py)

The source text of this function does not parse: the first branch reads
`if cfg.OPTIM.LR_POLICY = "cos"` (assignment instead of `==`, and no colon),
and the `MultiStepLR` call passes `cfg.OPTIM.LR_MULT=0.1`, which is not a
legal keyword argument.  Importing the module therefore raises `SyntaxError`
before any call can happen.  The definition below follows the nearest
syntactically valid reading of the branches (comparison with `==`, and the
multi-step decay factor `0.1`), which is what the spec describes. -/

/-- The scheduler object returned. -/
inductive Scheduler
  | cosineAnnealingLR (tMax : ℕ) (etaMin : ℚ)
  | multiStepLR (milestones : List ℕ) (gamma : ℚ)
deriving DecidableEq

/-- The one exception the file raises itself: `raise ValueError("not supported")`. -/
inductive UtilError
  | valueError (msg : String)
deriving DecidableEq

/-- `get_lr_scheduler(optimizer)` as intended (see the section comment):
`"cos"` builds `CosineAnnealingLR(optimizer, MAX_EPOCH, eta_min=0.00001)`,
`"steps"` builds `MultiStepLR(optimizer, [MAX_EPOCH*3//7, MAX_EPOCH*6//7], 0.1)`,
anything else raises `ValueError("not supported")`. -/
def get_lr_scheduler (lrPolicy : String) (maxEpoch : ℕ) : Except UtilError Scheduler :=
  if lrPolicy = "cos" then
    Except.ok (Scheduler.cosineAnnealingLR maxEpoch (1 / 100000))
  else if lrPolicy = "steps" then
    Except.ok (Scheduler.multiStepLR [maxEpoch * 3 / 7, maxEpoch * 6 / 7] (1 / 10))
  else
    Except.error (UtilError.valueError ("not supported"))

/-! ### save_checkpoint and show_log (src/util/utils.py) -/

/-- The path the function builds into its local variable `path`:
`"./checkpoint/" + filename`.  The source never uses this variable. -/
def checkpoint_path (filename : String) : String := "./checkpoint/" ++ filename

/-- `save_checkpoint(state, is_best, filename)`, modelled as the list of file
writes it performs, in order, as (path, serialized content) pairs.  The code
computes `path = "./checkpoint/" + filename` but then calls
`torch.save(state, filename)` — it writes to `filename` itself — and, when
`is_best`, copies `filename` to `"ckpt_best.pth.tar"`. -/
def save_checkpoint (state : ℕ) (is_best : Bool) (filename : String) :
    List (String × ℕ) :=
  (filename, state) :: (if is_best then [(("ckpt_best.pth.tar" : String), state)] else [])

/-- `show_log(log_str, rank)`, modelled as the list of lines printed:
`print(log_str)` exactly when `rank == 0`. -/
def show_log (log_str : String) (rank : ℤ) : List String :=
  if rank = 0 then [log_str] else []

end Utils

namespace Utils

/-! ### Helper lemmas -/

/-- Invariant of a successful run of `update` calls starting anywhere: the sum
and count grow by the totals of the sequence, and the average is
`sum / count` unless no call was made. -/
theorem runUpdates_spec (l : List (ℚ × ℤ)) :
    ∀ m0 m : AverageMeter, runUpdates m0 l = some m →
      m.sum = m0.sum + (l.map (fun p => p.1 * (p.2 : ℚ))).sum ∧
      m.count = m0.count + (l.map Prod.snd).sum ∧
      (m.avg = m.sum / (m.count : ℚ) ∨ m = m0) := by
  induction l with
  | nil =>
    intro m0 m h
    simp only [runUpdates, Option.some.injEq] at h
    subst h
    simp
  | cons p rest ih =>
    intro m0 m h
    obtain ⟨v, n⟩ := p
    simp only [runUpdates, Option.bind_eq_some] at h
    obtain ⟨m1, hm1, hrest⟩ := h
    simp only [AverageMeter.update] at hm1
    split at hm1
    · exact absurd hm1 (by simp)
    · simp only [Option.some.injEq] at hm1
      obtain ⟨hs, hc, havg⟩ := ih m1 m hrest
      subst hm1
      refine ⟨?_, ?_, ?_⟩
      · simp only at hs
        rw [hs]
        simp only [List.map_cons, List.sum_cons]
        ring
      · simp only at hc
        rw [hc]
        simp only [List.map_cons, List.sum_cons]
        ring
      · rcases havg with h1 | h1
        · exact Or.inl h1
        · subst h1
          exact Or.inl rfl

/-- Scanning a run of zeros never displaces a current best value of `1`. -/
theorem argmaxAux_replicate_zero (k : ℕ) :
    ∀ (i bi : ℕ), argmaxAux (List.replicate k 0) i bi 1 = bi := by
  induction k with
  | zero => intro i bi; rfl
  | succ k ih =>
    intro i bi
    simp only [List.replicate_succ, argmaxAux]
    rw [if_neg (by norm_num)]
    exact ih (i + 1) bi

/-- Scanning zeros, then a `1`, then zeros, with current best value `0`,
selects the position of the `1`. -/
theorem argmaxAux_zeros_one (k : ℕ) :
    ∀ (i bi m : ℕ),
      argmaxAux (List.replicate k 0 ++ 1 :: List.replicate m 0) i bi 0 = i + k := by
  induction k with
  | zero =>
    intro i bi m
    simp only [List.replicate, List.nil_append, argmaxAux]
    rw [if_pos (by norm_num), argmaxAux_replicate_zero]
    omega
  | succ k ih =>
    intro i bi m
    simp only [List.replicate_succ, List.cons_append, List.append_eq, argmaxAux]
    rw [if_neg (by norm_num), ih (i + 1) bi m]
    omega

/-- The arg-max of a one-hot row is its hot position. -/
theorem argmaxIdx_oneHot (c j : ℕ) : argmaxIdx (oneHot c j) = j := by
  cases j with
  | zero =>
    simp only [oneHot, List.replicate, List.nil_append, argmaxIdx]
    exact argmaxAux_replicate_zero (c - 0 - 1) 1 0
  | succ j =>
    simp only [oneHot, List.replicate_succ, List.cons_append, argmaxIdx]
    rw [argmaxAux_zeros_one j 1 0 (c - (j + 1) - 1)]
    omega

/-- Zipping a list with itself and counting coincidences counts everything. -/
theorem countP_zip_self (l : List ℕ) :
    (l.zip l).countP (fun p => p.1 == p.2) = l.length := by
  induction l with
  | nil => rfl
  | cons a t ih => simp [List.zip_cons_cons, List.countP_cons, ih]

/-- Elementwise reading of `tensorAdd` on equally shaped tensors, with `0`
read off the end. -/
theorem tensorAdd_getD (a : Tensor) :
    ∀ (b : Tensor), a.length = b.length → ∀ (j : ℕ),
      (tensorAdd a b).getD j 0 = a.getD j 0 + b.getD j 0 := by
  induction a with
  | nil =>
    intro b hb j
    have hbnil : b = [] := by
      cases b with
      | nil => rfl
      | cons y ys => simp at hb
    subst hbnil
    simp [tensorAdd]
  | cons x xs ih =>
    intro b hb j
    cases b with
    | nil => simp at hb
    | cons y ys =>
      cases j with
      | zero => simp [tensorAdd]
      | succ j =>
        simp only [tensorAdd, List.zipWith_cons_cons, List.getD_cons_succ]
        exact ih ys (by simpa using hb) j

/-- Folding `tensorAdd` over equally shaped tensors keeps the shape and sums
elementwise. -/
theorem foldl_tensorAdd_spec (ts : List Tensor) :
    ∀ (a : Tensor), (∀ t ∈ ts, t.length = a.length) →
      (ts.foldl tensorAdd a).length = a.length ∧
      ∀ j, (ts.foldl tensorAdd a).getD j 0
        = a.getD j 0 + (ts.map (fun t => t.getD j 0)).sum := by
  induction ts with
  | nil =>
    intro a _
    simp
  | cons t ts ih =>
    intro a h
    have hlen : t.length = a.length := h t (List.mem_cons_self t ts)
    have hadd_len : (tensorAdd a t).length = a.length := by
      simp [tensorAdd, List.length_zipWith, hlen]
    have hmem : ∀ u ∈ ts, u.length = (tensorAdd a t).length := by
      intro u hu
      rw [hadd_len]
      exact h u (List.mem_cons_of_mem _ hu)
    obtain ⟨l1, e1⟩ := ih (tensorAdd a t) hmem
    refine ⟨by simpa [hadd_len] using l1, ?_⟩
    intro j
    rw [List.foldl_cons, e1 j, tensorAdd_getD a t hlen.symm j]
    simp only [List.map_cons, List.sum_cons]
    ring

/-- Elementwise reading of `allReduceSum` on a nonempty group of equally
shaped replicas: every position holds the sum of the replicas there. -/
theorem allReduceSum_getD (reps : List Tensor) (hne : reps ≠ [])
    (hd : ∀ t ∈ reps, ∀ u ∈ reps, t.length = u.length) (j : ℕ) :
    (allReduceSum reps).getD j 0 = (reps.map (fun t => t.getD j 0)).sum := by
  cases reps with
  | nil => exact absurd rfl hne
  | cons t ts =>
    obtain ⟨l1, e1⟩ := foldl_tensorAdd_spec ts t (by
      intro u hu
      exact hd u (List.mem_cons_of_mem _ hu) t (List.mem_cons_self t ts))
    simp only [allReduceSum]
    rw [e1 j]
    simp only [List.map_cons, List.sum_cons]

/-- Elementwise reading of `tensorScale`. -/
theorem tensorScale_getD (c : ℚ) (t : Tensor) (j : ℕ) :
    (tensorScale c t).getD j 0 = c * t.getD j 0 := by
  induction t generalizing j with
  | nil => simp [tensorScale]
  | cons x xs ih =>
    cases j with
    | zero => simp [tensorScale]
    | succ j => simpa [tensorScale] using ih j

/-- Reading the `i`-th entry of a mapped list, for maps that send the default
`[]` to `[]`. -/
theorem getD_map_apply (f : List Tensor → Tensor) (hf : f [] = [])
    (L : List (List Tensor)) : ∀ (i : ℕ), (L.map f).getD i [] = f (L.getD i []) := by
  induction L with
  | nil =>
    intro i
    simp [hf]
  | cons x xs ih =>
    intro i
    cases i with
    | zero => simp
    | succ i => simpa using ih i

/-- Position-by-position reading of the multi-process trace: positions below
`n` queue reductions, positions in `[n, 2n)` wait, positions in `[2n, 3n)`
scale, and nothing follows. -/
theorem scaledAllReduceTrace_getElem (gpus n p : ℕ) (hg : gpus ≠ 1) :
    (scaledAllReduceTrace gpus n)[p]? =
      if p < n then some (RedEvent.issue p)
      else if p < 2 * n then some (RedEvent.wait (p - n))
      else if p < 3 * n then some (RedEvent.scale (p - 2 * n))
      else none := by
  simp only [scaledAllReduceTrace, if_neg hg]
  rw [List.append_assoc]
  by_cases h1 : p < n
  · rw [List.getElem?_append]
    simp [List.getElem?_map, List.getElem?_range h1, h1]
  · rw [List.getElem?_append_right (by simpa using Nat.le_of_not_lt h1)]
    simp only [List.length_map, List.length_range]
    by_cases h2 : p < 2 * n
    · have hpn : p - n < n := by omega
      rw [List.getElem?_append]
      simp [List.getElem?_map, List.getElem?_range hpn, hpn, h1, h2]
    · have hpn2 : n ≤ p - n := by omega
      rw [List.getElem?_append_right (by simpa using hpn2)]
      simp only [List.length_map, List.length_range]
      by_cases h3 : p < 3 * n
      · have heq : p - n - n = p - 2 * n := by omega
        rw [heq]
        have hpn3 : p - 2 * n < n := by omega
        simp [List.getElem?_map, List.getElem?_range hpn3, h1, h2, h3]
      · have hge : n ≤ p - n - n := by omega
        rw [List.getElem?_eq_none (by simpa using hge)]
        simp [h1, h2, h3]

/-! ### Claim theorems -/

/-- C5: for a process group of size `gpus` and equally shaped replicas,
`scaled_all_reduce` leaves the tensor list the same length and replaces every
tensor elementwise by the sum of its replicas across all processes divided by
the process count (the in-place update is modelled by the returned list). -/
theorem scaled_all_reduce_spec (gpus : ℕ) (replicasList : List (List Tensor))
    (hg : 0 < gpus)
    (hw : ∀ reps ∈ replicasList, reps.length = gpus)
    (hd : ∀ reps ∈ replicasList, ∀ t ∈ reps, ∀ u ∈ reps, t.length = u.length) :
    (scaled_all_reduce gpus replicasList).length = replicasList.length ∧
    ∀ i j, ((scaled_all_reduce gpus replicasList).getD i []).getD j 0
      = ((replicasList.getD i []).map (fun t => t.getD j 0)).sum / (gpus : ℚ) := by
  unfold scaled_all_reduce
  by_cases h1 : gpus = 1
  · subst h1
    rw [if_pos rfl]
    refine ⟨List.length_map _ _, ?_⟩
    intro i j
    rw [getD_map_apply (fun reps => reps.headD []) rfl replicasList i]
    by_cases hi : i < replicasList.length
    · have hmem : replicasList.getD i [] ∈ replicasList := by
        rw [List.getD_eq_getElem?_getD, List.getElem?_eq_getElem hi]
        exact List.getElem_mem hi
      have hlen1 : (replicasList.getD i []).length = 1 := hw _ hmem
      obtain ⟨t, ht⟩ := List.length_eq_one.mp hlen1
      rw [ht]
      simp
    · have hnil : replicasList.getD i [] = [] :=
        List.getD_eq_default _ _ (le_of_not_lt hi)
      rw [hnil]
      simp
  · rw [if_neg h1]
    refine ⟨List.length_map _ _, ?_⟩
    intro i j
    rw [getD_map_apply
      (fun reps => tensorScale (1 / (gpus : ℚ)) (allReduceSum reps)) rfl replicasList i]
    by_cases hi : i < replicasList.length
    · have hmem : replicasList.getD i [] ∈ replicasList := by
        rw [List.getD_eq_getElem?_getD, List.getElem?_eq_getElem hi]
        exact List.getElem_mem hi
      have hlen : (replicasList.getD i []).length = gpus := hw _ hmem
      have hne : replicasList.getD i [] ≠ [] := by
        intro hcontra
        rw [hcontra] at hlen
        simp at hlen
        omega
      rw [tensorScale_getD, allReduceSum_getD _ hne (hd _ hmem) j, one_div_mul_eq_div]
    · have hnil : replicasList.getD i [] = [] :=
        List.getD_eq_default _ _ (le_of_not_lt hi)
      rw [hnil]
      simp [tensorScale, allReduceSum]

/-- Witness for C5: two processes, one tensor with replicas `[1, 2]` and
`[3, 4]`; the reduced, scaled tensor is `[2, 3]`. -/
theorem scaled_all_reduce_spec_witness :
    (scaled_all_reduce 2 [[[1, 2], [3, 4]]]).length
      = ([[[(1 : ℚ), 2], [3, 4]]] : List (List Tensor)).length ∧
    ∀ i j, ((scaled_all_reduce 2 [[[1, 2], [3, 4]]]).getD i []).getD j 0
      = ((([[[(1 : ℚ), 2], [3, 4]]] : List (List Tensor)).getD i []).map
          (fun t => t.getD j 0)).sum / ((2 : ℕ) : ℚ) :=
  scaled_all_reduce_spec 2 [[[1, 2], [3, 4]]] (by decide) (by decide) (by decide)

/-- C6: when the world size exceeds one, the trace of `scaled_all_reduce` on
`n` tensors queues exactly one asynchronous reduction per tensor, in input
order, every queueing happens before any wait, and every wait happens before
any scaling. -/
theorem scaled_all_reduce_trace_order (gpus n : ℕ) (hg : gpus ≠ 1) :
    ((scaledAllReduceTrace gpus n).filter isIssue
      = (List.range n).map RedEvent.issue) ∧
    (∀ (p q i j : ℕ), (scaledAllReduceTrace gpus n)[p]? = some (RedEvent.issue i) →
      (scaledAllReduceTrace gpus n)[q]? = some (RedEvent.wait j) → p < q) ∧
    (∀ (p q i j : ℕ), (scaledAllReduceTrace gpus n)[p]? = some (RedEvent.wait i) →
      (scaledAllReduceTrace gpus n)[q]? = some (RedEvent.scale j) → p < q) := by
  refine ⟨?_, ?_, ?_⟩
  · simp only [scaledAllReduceTrace, if_neg hg, List.filter_append, List.filter_map]
    have h1 : isIssue ∘ RedEvent.issue = fun _ => true := rfl
    have h2 : isIssue ∘ RedEvent.wait = fun _ => false := rfl
    have h3 : isIssue ∘ RedEvent.scale = fun _ => false := rfl
    rw [h1, h2, h3, List.filter_true, List.filter_false]
    simp
  · intro p q i j hp hq
    rw [scaledAllReduceTrace_getElem gpus n p hg] at hp
    rw [scaledAllReduceTrace_getElem gpus n q hg] at hq
    split at hp
    · split at hq
      · exact absurd hq (by simp)
      · split at hq
        · omega
        · split at hq
          · exact absurd hq (by simp)
          · exact absurd hq (by simp)
    · split at hp
      · exact absurd hp (by simp)
      · split at hp
        · exact absurd hp (by simp)
        · exact absurd hp (by simp)
  · intro p q i j hp hq
    rw [scaledAllReduceTrace_getElem gpus n p hg] at hp
    rw [scaledAllReduceTrace_getElem gpus n q hg] at hq
    split at hp
    · exact absurd hp (by simp)
    · split at hp
      · split at hq
        · exact absurd hq (by simp)
        · split at hq
          · exact absurd hq (by simp)
          · split at hq
            · omega
            · exact absurd hq (by simp)
      · split at hp
        · exact absurd hp (by simp)
        · exact absurd hp (by simp)

/-- Witness for C6 at world size `2` and two tensors. -/
theorem scaled_all_reduce_trace_order_witness :
    ((scaledAllReduceTrace 2 2).filter isIssue
      = (List.range 2).map RedEvent.issue) ∧
    (∀ (p q i j : ℕ), (scaledAllReduceTrace 2 2)[p]? = some (RedEvent.issue i) →
      (scaledAllReduceTrace 2 2)[q]? = some (RedEvent.wait j) → p < q) ∧
    (∀ (p q i j : ℕ), (scaledAllReduceTrace 2 2)[p]? = some (RedEvent.wait i) →
      (scaledAllReduceTrace 2 2)[q]? = some (RedEvent.scale j) → p < q) :=
  scaled_all_reduce_trace_order 2 2 (by decide)

/-- C7: on a batch whose rows are one-hot-certain predictions whose arg-max
class is the corresponding target, `accuracy(output, target, topk=(1,))`
returns a top-1 accuracy of `100.0`. -/
theorem accuracy_onehot_100 (c : ℕ) (target : List ℕ) (h0 : target ≠ [])
    (hc : ∀ t ∈ target, t < c) :
    accuracy_top1 (target.map (oneHot c)) target = 100 := by
  simp only [accuracy_top1]
  have hpred : (target.map (oneHot c)).map argmaxIdx = target := by
    rw [List.map_map]
    have h : ∀ t ∈ target, (argmaxIdx ∘ oneHot c) t = id t := by
      intro t ht
      simpa using argmaxIdx_oneHot c t
    rw [List.map_congr_left h, List.map_id]
  rw [hpred, countP_zip_self]
  have hn : (target.length : ℚ) ≠ 0 := by
    have h : target.length ≠ 0 := by simpa [List.length_eq_zero] using h0
    exact_mod_cast h
  field_simp

/-- Witness for C7: two one-hot rows over two classes, hot at their targets. -/
theorem accuracy_onehot_100_witness :
    accuracy_top1 (([0, 1] : List ℕ).map (oneHot 2)) [0, 1] = 100 :=
  accuracy_onehot_100 2 [0, 1] (by decide) (by decide)

/-- C1: for the policy strings "cos" and "steps", `get_lr_scheduler` returns a
scheduler object — a `CosineAnnealingLR` over `MAX_EPOCH` epochs with
`eta_min = 0.00001` for "cos", a `MultiStepLR` with milestones
`MAX_EPOCH*3//7` and `MAX_EPOCH*6//7` for "steps".  (Proved of the intended
reading of the function; the source text itself does not parse, see the
section comment on `get_lr_scheduler`.) -/
theorem get_lr_scheduler_supported (maxEpoch : ℕ) :
    get_lr_scheduler ("cos") maxEpoch
      = Except.ok (Scheduler.cosineAnnealingLR maxEpoch (1 / 100000)) ∧
    get_lr_scheduler ("steps") maxEpoch
      = Except.ok (Scheduler.multiStepLR [maxEpoch * 3 / 7, maxEpoch * 6 / 7] (1 / 10)) :=
  ⟨rfl, rfl⟩

/-- C2: for every policy string other than "cos" and "steps",
`get_lr_scheduler` raises `ValueError("not supported")` — the only `raise`
statement in the file.  (Proved of the intended reading of the function; the
source text itself does not parse, see the section comment on
`get_lr_scheduler`.) -/
theorem get_lr_scheduler_unsupported (lrPolicy : String) (maxEpoch : ℕ)
    (h1 : lrPolicy ≠ ("cos")) (h2 : lrPolicy ≠ ("steps")) :
    get_lr_scheduler lrPolicy maxEpoch
      = Except.error (UtilError.valueError ("not supported")) := by
  simp [get_lr_scheduler, h1, h2]

/-- Witness for C2 at the concrete unsupported policy "linear". -/
theorem get_lr_scheduler_unsupported_witness :
    get_lr_scheduler ("linear") 14
      = Except.error (UtilError.valueError ("not supported")) :=
  get_lr_scheduler_unsupported ("linear") 14 (by decide) (by decide)

/-- C3: after `reset()` and a completed sequence of calls
`update(v_1, n_1), ..., update(v_m, n_m)`, the meter satisfies
`sum = Σ v_i * n_i`, `count = Σ n_i` and `avg = sum / count`. -/
theorem averageMeter_update_totals (m0 : AverageMeter) (l : List (ℚ × ℤ))
    (m : AverageMeter) (h : runUpdates m0.reset l = some m) :
    m.sum = (l.map (fun p => p.1 * (p.2 : ℚ))).sum ∧
    m.count = (l.map Prod.snd).sum ∧
    m.avg = m.sum / (m.count : ℚ) := by
  obtain ⟨hs, hc, havg⟩ := runUpdates_spec l m0.reset m h
  refine ⟨by simpa [AverageMeter.reset] using hs,
    by simpa [AverageMeter.reset] using hc, ?_⟩
  rcases havg with h1 | h1
  · exact h1
  · subst h1
    simp [AverageMeter.reset]

/-- Witness for C3: the sequence `update(2, 1), update(4, 3)` on a fresh
meter ends with `sum = 14`, `count = 4`, `avg = 7/2`. -/
theorem averageMeter_update_totals_witness :
    (⟨("Loss"), (":f"), 4, 7 / 2, 14, 4⟩ : AverageMeter).sum
      = (([((2 : ℚ), (1 : ℤ)), (4, 3)]).map (fun p => p.1 * (p.2 : ℚ))).sum ∧
    (⟨("Loss"), (":f"), 4, 7 / 2, 14, 4⟩ : AverageMeter).count
      = (([((2 : ℚ), (1 : ℤ)), (4, 3)]).map Prod.snd).sum ∧
    (⟨("Loss"), (":f"), 4, 7 / 2, 14, 4⟩ : AverageMeter).avg
      = (⟨("Loss"), (":f"), 4, 7 / 2, 14, 4⟩ : AverageMeter).sum
        / ((⟨("Loss"), (":f"), 4, 7 / 2, 14, 4⟩ : AverageMeter).count : ℚ) :=
  averageMeter_update_totals (AverageMeter.init ("Loss") (":f"))
    [((2 : ℚ), (1 : ℤ)), (4, 3)] ⟨("Loss"), (":f"), 4, 7 / 2, 14, 4⟩ (by
      simp only [runUpdates, AverageMeter.update, AverageMeter.init, AverageMeter.reset]
      norm_num)

/-- C4 counterexample: `reset()` does not zero every attribute of the object —
it leaves `name` (and `fmt`) untouched, so a reset meter named "Time" still
carries that name, and two reset meters need not be equal. -/
theorem averageMeter_reset_name_cex :
    ((AverageMeter.init ("Time") (":6.3f")).reset).name = ("Time") ∧
    (AverageMeter.init ("Time") (":6.3f")).reset
      ≠ (AverageMeter.init ("Data") (":5.3f")).reset :=
  ⟨rfl, by decide⟩

/-- C4 amended: `reset()` zeroes the four numeric attributes `val`, `avg`,
`sum`, `count`, and leaves `name` and `fmt` unchanged. -/
theorem averageMeter_reset_fields (m : AverageMeter) :
    m.reset.val = 0 ∧ m.reset.avg = 0 ∧ m.reset.sum = 0 ∧ m.reset.count = 0 ∧
    m.reset.name = m.name ∧ m.reset.fmt = m.fmt :=
  ⟨rfl, rfl, rfl, rfl, rfl, rfl⟩

/-- C8: evaluation of `save_checkpoint` at a concrete call.  The code writes
the state to `filename` itself (and, when `is_best`, to
`"ckpt_best.pth.tar"`); the path `"./checkpoint/" + filename` it computes
into the local `path` is never written to. -/
theorem save_checkpoint_paths :
    ((save_checkpoint 7 false ("ckpt.pth.tar")).map Prod.fst
      = [("ckpt.pth.tar" : String)]) ∧
    ((save_checkpoint 7 true ("ckpt.pth.tar")).map Prod.fst
      = [("ckpt.pth.tar" : String), ("ckpt_best.pth.tar" : String)]) ∧
    checkpoint_path ("ckpt.pth.tar")
      ∉ (save_checkpoint 7 true ("ckpt.pth.tar")).map Prod.fst := by
  refine ⟨rfl, rfl, ?_⟩
  decide

/-- C9: `show_log(log_str, rank)` prints `log_str` exactly when `rank == 0`,
and prints nothing for every nonzero rank. -/
theorem show_log_rank_zero (log_str : String) (rank : ℤ) :
    (show_log log_str rank = [log_str] ↔ rank = 0) ∧
    (show_log log_str rank = [] ↔ rank ≠ 0) := by
  unfold show_log
  by_cases h : rank = 0 <;> simp [h]

/-- C10: `update(val, n)` divides by the updated count, so it raises exactly
when `count + n = 0`; in particular `update(v, 0)` on a freshly constructed
(hence reset) meter reaches a division by zero. -/
theorem averageMeter_update_div_by_zero :
    (∀ (m : AverageMeter) (v : ℚ) (n : ℤ), m.update v n = none ↔ m.count + n = 0) ∧
    (∀ (name fmt : String) (v : ℚ), (AverageMeter.init name fmt).update v 0 = none) := by
  constructor
  · intro m v n
    unfold AverageMeter.update
    by_cases h : m.count + n = 0 <;> simp [h]
  · intro name fmt v
    unfold AverageMeter.update AverageMeter.init AverageMeter.reset
    simp

end Utils
